import Mathlib

/-!
Verification development for the toml-query path query engine.

The Rust sources are shallowly embedded: the TOML `Value` tree is an
inductive type (tables as association lists, arrays as lists), the token
chain of `src/tokenizer.rs` is a `List Tok`, machine integers are `Nat`
with explicit bounds (`usize` overflow is modelled by comparison with
`2 ^ 64 - 1`), and fallible Rust code returns an `Outcome` value that is
either `ok`, a typed `err` of the error taxonomy of `src/error.rs`, or
`panic` (a Rust panic, e.g. `unwrap` on `None`, out-of-bounds `Vec`
indexing, or an explicit `unimplemented` / `panic` macro call).
Functions that receive a `&mut Value` handle are embedded in explicit
state-passing style: they return the result together with the updated
document; a returned `&mut` handle is embedded as a continuation `k`
that is applied at the resolved node and whose updated node is written
back along the traversal path.

The regex class `\d` of the tokenizer is modelled as the ASCII digits
`0-9` (the spec, section 6, gives the pattern as `[0-9]+`), and `usize`
as a 64-bit machine word.
-/

/-- The document model: `toml::Value`. Tables are association lists from
`String` to `Value` (first binding wins), arrays are lists. The four
scalar kinds besides `string` carry opaque payloads; the engine only
ever distinguishes container from scalar. -/
inductive Value where
  | table : List (String × Value) → Value
  | array : List Value → Value
  | string : String → Value
  | integer : Int → Value
  | float : Nat → Value
  | boolean : Bool → Value
  | datetime : String → Value
deriving Repr

/-- The error taxonomy of `src/error.rs` (the variants originated by the
core engine). -/
inductive Error where
  | emptyQueryError : Error
  | emptyIdentifier : Error
  | arrayAccessWithoutIndex : Error
  | arrayAccessWithInvalidIndex : Error
  | identifierNotFoundInDocument : String → Error
  | noIndexInTable : Nat → Error
  | noIdentifierInArray : String → Error
  | queryingValueAsTable : String → Error
  | queryingValueAsArray : Nat → Error
  | cannotDeleteNonEmptyTable : Option String → Error
  | cannotDeleteNonEmptyArray : Option String → Error
  | cannotAccessBecauseTypeMismatch : String → String → Error
  | arrayIndexOutOfBounds : Nat → Nat → Error
  | typeError : String → String → Error
  | notAvailable : String → Error
deriving Repr, DecidableEq

/-- Result of running a piece of Rust code: `Ok`, a typed `Err`, or a
Rust panic (carrying an informal message). -/
inductive Outcome (α : Type) where
  | ok : α → Outcome α
  | err : Error → Outcome α
  | panic : String → Outcome α
deriving Repr

def Outcome.map {α β : Type} (f : α → β) : Outcome α → Outcome β
  | .ok a => .ok (f a)
  | .err e => .err e
  | .panic m => .panic m

def Outcome.isPanic {α : Type} : Outcome α → Bool
  | .panic _ => true
  | _ => false

def Outcome.isErr {α : Type} : Outcome α → Bool
  | .err _ => true
  | _ => false

def Outcome.isOk {α : Type} : Outcome α → Bool
  | .ok _ => true
  | _ => false

/-- One addressing segment (`Token` of `src/tokenizer.rs`); the `next`
chain of the source is represented by keeping tokens in a `List Tok`. -/
inductive Tok where
  | identifier : String → Tok
  | index : Nat → Tok
deriving Repr, DecidableEq

/-! ## Table (association-list) and array (list) primitives -/

/-- `Map::get`. -/
def tget : List (String × Value) → String → Option Value
  | [], _ => none
  | (k, v) :: r, key => if k = key then some v else tget r key

/-- `Map::insert` / `entry().or_insert` write: replace the binding in
place if the key is present, otherwise add it. -/
def tset : List (String × Value) → String → Value → List (String × Value)
  | [], key, v => [(key, v)]
  | (k, w) :: r, key, v =>
    if k = key then (k, v) :: r else (k, w) :: tset r key v

/-- `Map::remove`: returns the removed value (if any) and the table
without that binding. -/
def tremove : List (String × Value) → String → Option Value × List (String × Value)
  | [], _ => (none, [])
  | (k, v) :: r, key =>
    if k = key then (some v, r)
    else
      let (o, r') := tremove r key
      (o, (k, v) :: r')

/-- `Vec` random access (`get` semantics: `none` when out of bounds). -/
def aget : List Value → Nat → Option Value
  | [], _ => none
  | x :: _, 0 => some x
  | _ :: r, n + 1 => aget r n

/-- Overwrite the element at an index (leaves the list unchanged when
out of bounds; only used at in-bounds indices). -/
def aset : List Value → Nat → Value → List Value
  | [], _, _ => []
  | _ :: r, 0, v => v :: r
  | x :: r, n + 1, v => x :: aset r n v

/-- `Vec::insert(idx, v)`: insert before position `idx`, shifting the
rest right. Only called with `idx < len` (the Rust call would panic at
`idx > len`; that call site is guarded). -/
def ainsert : List Value → Nat → Value → List Value
  | l, 0, v => v :: l
  | [], _ + 1, _ => []
  | x :: r, n + 1, v => x :: ainsert r n v

/-- `Vec::remove(idx)`: drop the element at `idx`, shifting left. -/
def aremove : List Value → Nat → List Value
  | [], _ => []
  | _ :: r, 0 => r
  | x :: r, n + 1 => x :: aremove r n

/-! ## Value classifiers (delete.rs helpers and util.rs) -/

def Value.isTable : Value → Bool
  | .table _ => true
  | _ => false

def Value.isArray : Value → Bool
  | .array _ => true
  | _ => false

def isScalar : Value → Bool
  | .table _ => false
  | .array _ => false
  | _ => true

/-- `is_empty(Some(v), default)` of `src/delete.rs`: container emptiness,
`default` for scalars. -/
def isEmptyVal (v : Value) (dflt : Bool) : Bool :=
  match v with
  | .table t => t.isEmpty
  | .array a => a.isEmpty
  | _ => dflt

/-- `is_empty(val, default)` of `src/delete.rs` on an optional value. -/
def isEmptyOpt (o : Option Value) (dflt : Bool) : Bool :=
  match o with
  | some v => isEmptyVal v dflt
  | none => dflt

def isTableOpt (o : Option Value) : Bool :=
  match o with
  | some v => v.isTable
  | none => false

def isArrayOpt (o : Option Value) : Bool :=
  match o with
  | some v => v.isArray
  | none => false

/-- `name_of_val` of `src/util.rs`. -/
def name_of_val : Value → String
  | .array _ => "Array"
  | .boolean _ => "Boolean"
  | .datetime _ => "Datetime"
  | .float _ => "Float"
  | .integer _ => "Integer"
  | .string _ => "String"
  | .table _ => "Table"

/-- `name_of_val` on an optional value (delete.rs helper, default
string for `None`). -/
def nameOfOpt (o : Option Value) : String :=
  match o with
  | some v => name_of_val v
  | none => "None"

/-- A value is a non-empty Table or a non-empty Array. -/
def isNonEmptyContainer : Value → Bool
  | .table t => !t.isEmpty
  | .array a => !a.isEmpty
  | _ => false

/-! ## Tokenizer (`src/tokenizer.rs`) -/

/-- Rust `str::split(sep)` on the character sequence: splitting never
yields the empty list, and empty pieces are kept. -/
def splitChars (sep : Char) : List Char → List (List Char)
  | [] => [[]]
  | c :: cs =>
    if c = sep then [] :: splitChars sep cs
    else
      match splitChars sep cs with
      | [] => [[c]]
      | g :: gs => (c :: g) :: gs

/-- `has_array_brackets`: first byte is `[` and last byte is `]`. On a
one-character segment the first and last byte coincide, which
`getLastD c` reproduces. (Rust would panic on an empty segment; callers
check the length first, so the `[]` case is unreachable.) -/
def hasArrayBrackets : List Char → Bool
  | [] => false
  | c :: cs => c = '[' && cs.getLastD c = ']'

/-- `without_array_brackets`: `replace("[","").replace("]","")`. -/
def withoutBrackets (s : List Char) : List Char :=
  s.filter (fun c => c != '[' && c != ']')

/-- The non-ASCII codepoint ranges of the Unicode general category Nd
(decimal digits), inclusive bounds. -/
def ndExtraRanges : List (Nat × Nat) :=
  [(0x660, 0x669), (0x6F0, 0x6F9), (0x7C0, 0x7C9), (0x966, 0x96F),
   (0x9E6, 0x9EF), (0xA66, 0xA6F), (0xAE6, 0xAEF), (0xB66, 0xB6F),
   (0xBE6, 0xBEF), (0xC66, 0xC6F), (0xCE6, 0xCEF), (0xD66, 0xD6F),
   (0xDE6, 0xDEF), (0xE50, 0xE59), (0xED0, 0xED9), (0xF20, 0xF29),
   (0x1040, 0x1049), (0x1090, 0x1099), (0x17E0, 0x17E9), (0x1810, 0x1819),
   (0x1946, 0x194F), (0x19D0, 0x19D9), (0x1A80, 0x1A89), (0x1A90, 0x1A99),
   (0x1B50, 0x1B59), (0x1BB0, 0x1BB9), (0x1C40, 0x1C49), (0x1C50, 0x1C59),
   (0xA620, 0xA629), (0xA8D0, 0xA8D9), (0xA900, 0xA909), (0xA9D0, 0xA9D9),
   (0xA9F0, 0xA9F9), (0xAA50, 0xAA59), (0xABF0, 0xABF9), (0xFF10, 0xFF19),
   (0x104A0, 0x104A9), (0x10D30, 0x10D39), (0x11066, 0x1106F),
   (0x110F0, 0x110F9), (0x11136, 0x1113F), (0x111D0, 0x111D9),
   (0x112F0, 0x112F9), (0x11450, 0x11459), (0x114D0, 0x114D9),
   (0x11650, 0x11659), (0x116C0, 0x116C9), (0x11730, 0x11739),
   (0x118E0, 0x118E9), (0x11950, 0x11959), (0x11C50, 0x11C59),
   (0x11D50, 0x11D59), (0x11DA0, 0x11DA9), (0x11F50, 0x11F59),
   (0x16A60, 0x16A69), (0x16AC0, 0x16AC9), (0x16B50, 0x16B59),
   (0x1D7CE, 0x1D7FF), (0x1E140, 0x1E149), (0x1E2F0, 0x1E2F9),
   (0x1E4F0, 0x1E4F9), (0x1E950, 0x1E959), (0x1FBF0, 0x1FBF9)]

/-- Membership in the Unicode decimal-digit class Nd, which is what the
regex crate's `\d` matches by default (Unicode-aware): the ASCII digits
plus the other decimal-digit ranges. -/
def isNdDigit (c : Char) : Bool :=
  c.isDigit || ndExtraRanges.any (fun r => decide (r.1 ≤ c.toNat ∧ c.toNat ≤ r.2))

/-- Whether the regex `^\[\d+\]$` matches the segment; `\d` is the
Unicode-aware decimal-digit class. -/
def regexIndexMatch : List Char → Bool
  | [] => false
  | c :: cs =>
    c = '[' && cs.getLastD c = ']' &&
      !cs.dropLast.isEmpty && cs.dropLast.all isNdDigit

/-- Decimal value of a digit string. -/
def digitsToNat (s : List Char) : Nat :=
  s.foldl (fun n c => n * 10 + (c.toNat - 48)) 0

/-- `usize::MAX` on a 64-bit machine. -/
def USIZE_MAX : Nat := 2 ^ 64 - 1

/-- `mk_token_object` of `src/tokenizer.rs`: a segment that does not
both start with `[` and end with `]` is an `Identifier` verbatim;
otherwise the regex `^\[\d+\]$` decides between the `usize` parse of
the bracket content and the `ArrayAccessWithoutIndex` error.
`usize::from_str` succeeds exactly on all-ASCII-digit strings whose
value fits the machine word, so a regex match containing a non-ASCII
decimal digit, or one whose value exceeds the machine word, makes the
`unwrap` panic. -/
def mk_token_object (s : List Char) : Outcome Tok :=
  if s.isEmpty then .panic "index out of bounds"
  else if !hasArrayBrackets s then .ok (.identifier (String.mk s))
  else if regexIndexMatch s then
    let digits := withoutBrackets s
    if digits.all Char.isDigit then
      if digitsToNat digits ≤ USIZE_MAX then .ok (.index (digitsToNat digits))
      else .panic "called Result::unwrap on an Err value"
    else .panic "called Result::unwrap on an Err value"
  else .err .arrayAccessWithoutIndex

/-- `build_token_tree`: each further segment must be non-empty and is
turned into a token; errors and panics propagate left to right. -/
def tokenizeRest : List (List Char) → Outcome (List Tok)
  | [] => .ok []
  | s :: rest =>
    if s.isEmpty then .err .emptyIdentifier
    else
      match mk_token_object s with
      | .ok tok => (tokenizeRest rest).map (tok :: ·)
      | .err e => .err e
      | .panic m => .panic m

/-- `tokenize_with_seperator` of `src/tokenizer.rs`. The `.ok` result is
always a non-empty token list (splitting never yields the empty list,
so the inner `[]` case is unreachable). -/
def tokenize_with_seperator (query : String) (sep : Char) : Outcome (List Tok) :=
  if query.data.isEmpty then .err .emptyQueryError
  else
    match splitChars sep query.data with
    | [] => .err .emptyQueryError
    | s :: rest =>
      if s.isEmpty then .err .emptyIdentifier
      else
        match mk_token_object s with
        | .ok tok => (tokenizeRest rest).map (tok :: ·)
        | .err e => .err e
        | .panic m => .panic m

/-- `Token::pop_last`: `none` on a single-token chain, otherwise the
chain without its last token together with that last token. -/
def pop_last (ts : List Tok) : Option (List Tok × Tok) :=
  match ts with
  | [] => none
  | [_] => none
  | t :: rest => some ((t :: rest).dropLast, rest.getLastD t)

/-! ## Resolvers

`src/read.rs` and `src/delete.rs` delegate their traversal to
`resolver::non_mut_resolver::resolve` and `resolver::mut_resolver::resolve`,
whose source files are not present under `src/`; they are modelled from
the spec below. The creating resolver `src/resolver/mut_creating_resolver.rs`
is present and embedded faithfully. -/

/-- Modelled from the spec: `resolver::non_mut_resolver::resolve` (and the
identically-traversing `resolver::mut_resolver::resolve` when only the
resolved value is observed) is not under `src/`; sections 4.2 and 4.3 of
the spec give the traversal rule, and section 7 gives the
identifier-missing error used when the resolver "does not tolerate
absence" (`errorIfNotFound = true`, the flag `src/delete.rs` passes).
The spec leaves the error payload for an out-of-bounds index under
`errorIfNotFound = true` unspecified; the index is rendered as the
missing identifier. An exhausted token list returns the current value. -/
def resolveNonMut (errorIfNotFound : Bool) : Value → List Tok → Outcome (Option Value)
  | v, [] => .ok (some v)
  | .table t, .identifier i :: rest =>
    (match tget t i with
     | none =>
       if errorIfNotFound then .err (.identifierNotFoundInDocument i) else .ok none
     | some sub => resolveNonMut errorIfNotFound sub rest)
  | .table _, .index n :: _ => .err (.noIndexInTable n)
  | .array a, .index n :: rest =>
    (match aget a n with
     | none =>
       if errorIfNotFound then .err (.identifierNotFoundInDocument (Nat.repr n)) else .ok none
     | some el => resolveNonMut errorIfNotFound el rest)
  | .array _, .identifier i :: _ => .err (.noIdentifierInArray i)
  | .string _, .identifier i :: _ => .err (.queryingValueAsTable i)
  | .integer _, .identifier i :: _ => .err (.queryingValueAsTable i)
  | .float _, .identifier i :: _ => .err (.queryingValueAsTable i)
  | .boolean _, .identifier i :: _ => .err (.queryingValueAsTable i)
  | .datetime _, .identifier i :: _ => .err (.queryingValueAsTable i)
  | .string _, .index n :: _ => .err (.queryingValueAsArray n)
  | .integer _, .index n :: _ => .err (.queryingValueAsArray n)
  | .float _, .index n :: _ => .err (.queryingValueAsArray n)
  | .boolean _, .index n :: _ => .err (.queryingValueAsArray n)
  | .datetime _, .index n :: _ => .err (.queryingValueAsArray n)

/-- Modelled from the spec: `resolver::mut_resolver::resolve` with
`error_if_not_found = true` as `src/delete.rs` calls it, embedded in
continuation style: the `&mut Value` handle the Rust function returns is
represented by applying `k` at the resolved node and writing the node
`k` produces back along the path. Traversal and errors follow spec
sections 4.3 and 7 (same rule as `resolveNonMut` with the flag set);
on an error the document is returned unchanged. -/
def resolveMutThen {β : Type} (k : Value → Outcome β × Value) :
    Value → List Tok → Outcome β × Value
  | v, [] => k v
  | .table t, .identifier i :: rest =>
    match tget t i with
    | none => (.err (.identifierNotFoundInDocument i), .table t)
    | some sub =>
      let (r, sub') := resolveMutThen k sub rest
      (r, .table (tset t i sub'))
  | .table t, .index n :: _ => (.err (.noIndexInTable n), .table t)
  | .array a, .index n :: rest =>
    match aget a n with
    | none => (.err (.identifierNotFoundInDocument (Nat.repr n)), .array a)
    | some el =>
      let (r, el') := resolveMutThen k el rest
      (r, .array (aset a n el'))
  | .array a, .identifier i :: _ => (.err (.noIdentifierInArray i), .array a)
  | .string s, .identifier i :: _ => (.err (.queryingValueAsTable i), .string s)
  | .integer m, .identifier i :: _ => (.err (.queryingValueAsTable i), .integer m)
  | .float f, .identifier i :: _ => (.err (.queryingValueAsTable i), .float f)
  | .boolean b, .identifier i :: _ => (.err (.queryingValueAsTable i), .boolean b)
  | .datetime d, .identifier i :: _ => (.err (.queryingValueAsTable i), .datetime d)
  | .string s, .index n :: _ => (.err (.queryingValueAsArray n), .string s)
  | .integer m, .index n :: _ => (.err (.queryingValueAsArray n), .integer m)
  | .float f, .index n :: _ => (.err (.queryingValueAsArray n), .float f)
  | .boolean b, .index n :: _ => (.err (.queryingValueAsArray n), .boolean b)
  | .datetime d, .index n :: _ => (.err (.queryingValueAsArray n), .datetime d)

/-- The placeholder element the creating resolver pushes past the end of
an array: an empty Table when the next token is an Identifier, an empty
Array when it is an Index. -/
def placeholderFor : Tok → Value
  | .identifier _ => .table []
  | .index _ => .array []

/-- `resolve` of `src/resolver/mut_creating_resolver.rs` in continuation
style (`k` embodies the `&mut Value` handle handed back to the caller).
Branch by branch: Identifier on a Table descends, fabricating a fresh
empty Table when the key is absent; Identifier on an Array is
`NoIdentifierInArray`; Identifier on a scalar hits `unimplemented` (a
panic); Index on a Table is `NoIndexInTable`; Index on an Array within
bounds descends; Index at or past the end with a further token pushes
the placeholder for the next token and then hits `panic("Cannot do
this")`; Index at or past the end with no further token hits
`unimplemented`; Index on a scalar hits `unimplemented`. -/
def resolveCreating {β : Type} (k : Value → Outcome β × Value) :
    Value → List Tok → Outcome β × Value
  | v, [] => k v
  | .table tbl, .identifier i :: rest =>
    (match tget tbl i with
     | some sub =>
       let (r, sub') := resolveCreating k sub rest
       (r, .table (tset tbl i sub'))
     | none =>
       let (r, sub') := resolveCreating k (.table []) rest
       (r, .table (tset tbl i sub')))
  | .array a, .identifier i :: _ => (.err (.noIdentifierInArray i), .array a)
  | .table tbl, .index n :: _ => (.err (.noIndexInTable n), .table tbl)
  | .array a, .index n :: rest =>
    (match aget a n with
     | some el =>
       let (r, el') := resolveCreating k el rest
       (r, .array (aset a n el'))
     | none =>
       match rest with
       | next :: _ => (.panic "Cannot do this", .array (a ++ [placeholderFor next]))
       | [] => (.panic "not implemented", .array a))
  | .string s, _ :: _ => (.panic "not implemented", .string s)
  | .integer m, _ :: _ => (.panic "not implemented", .integer m)
  | .float f, _ :: _ => (.panic "not implemented", .float f)
  | .boolean b, _ :: _ => (.panic "not implemented", .boolean b)
  | .datetime d, _ :: _ => (.panic "not implemented", .datetime d)

/-! ## Operations -/

/-- `read_with_seperator` of `src/read.rs`: tokenize, then delegate the
whole token chain to the read-only resolver (flag `false`). -/
def read_with_seperator (doc : Value) (query : String) (sep : Char) :
    Outcome (Option Value) :=
  match tokenize_with_seperator query sep with
  | .ok ts => resolveNonMut false doc ts
  | .err e => .err e
  | .panic m => .panic m

/-- `read_mut_with_seperator` of `src/read.rs`, observing the resolved
value (the mutable resolver traverses identically, flag `false`). -/
def read_mut_with_seperator (doc : Value) (query : String) (sep : Char) :
    Outcome (Option Value) :=
  match tokenize_with_seperator query sep with
  | .ok ts => resolveNonMut false doc ts
  | .err e => .err e
  | .panic m => .panic m

/-- The last-segment policy of `insert_with_seperator`
(`src/insert.rs`, match on `*last`): Table + Identifier inserts and
returns the prior value; Array + Index inserts before the position when
`len > idx`, otherwise pushes at the end, returning `None` either way;
mismatches give `NoIdentifierInArray` / `NoIndexInTable`. -/
def insertLast (last : Tok) (value : Value) (val : Value) :
    Outcome (Option Value) × Value :=
  match last, val with
  | .identifier i, .table t => (.ok (tget t i), .table (tset t i value))
  | .index n, .array a =>
    if n < a.length then (.ok none, .array (ainsert a n value))
    else (.ok none, .array (a ++ [value]))
  | .identifier i, .array a => (.err (.noIdentifierInArray i), .array a)
  | .identifier i, .string s => (.err (.noIdentifierInArray i), .string s)
  | .identifier i, .integer m => (.err (.noIdentifierInArray i), .integer m)
  | .identifier i, .float f => (.err (.noIdentifierInArray i), .float f)
  | .identifier i, .boolean b => (.err (.noIdentifierInArray i), .boolean b)
  | .identifier i, .datetime d => (.err (.noIdentifierInArray i), .datetime d)
  | .index n, .table t => (.err (.noIndexInTable n), .table t)
  | .index n, .string s => (.err (.noIndexInTable n), .string s)
  | .index n, .integer m => (.err (.noIndexInTable n), .integer m)
  | .index n, .float f => (.err (.noIndexInTable n), .float f)
  | .index n, .boolean b => (.err (.noIndexInTable n), .boolean b)
  | .index n, .datetime d => (.err (.noIndexInTable n), .datetime d)

/-- The token-level body of `insert_with_seperator`:
`tokens.pop_last().unwrap()` (a panic when the chain has a single
token), then resolve the remaining chain with the creating resolver
(the two-argument `resolve` insert calls is the one of
`src/resolver/mut_creating_resolver.rs`, per spec section 4.7), and
apply the last-segment policy at the resolved parent. -/
def insert_tokens (doc : Value) (value : Value) (ts : List Tok) :
    Outcome (Option Value) × Value :=
  match pop_last ts with
  | none => (.panic "called Option::unwrap on a None value", doc)
  | some (pre, last) => resolveCreating (insertLast last value) doc pre

/-- `insert_with_seperator` of `src/insert.rs`: tokenize, then run the
token-level body. -/
def insert_with_seperator (doc : Value) (query : String) (sep : Char)
    (value : Value) : Outcome (Option Value) × Value :=
  match tokenize_with_seperator query sep with
  | .err e => (.err e, doc)
  | .panic m => (.panic m, doc)
  | .ok ts => insert_tokens doc value ts

/-- The root branch of `delete_with_seperator` (`src/delete.rs`, the
`None => ...` arm): the whole query was a single token, operating on the
document itself. Note the Array + Index arm indexes the array before
any bounds check (`arr.index(idx)` panics when `idx` is at or past the
length), and the final `else` arms are unreachable (a scalar counts as
empty under default `true`). -/
def deleteRoot (doc : Value) (t : Tok) : Outcome (Option Value) × Value :=
  match doc, t with
  | .table tab, .identifier i =>
    if isEmptyOpt (tget tab i) true then
      let (old, tab') := tremove tab i
      (.ok old, .table tab')
    else if isTableOpt (tget tab i) then
      (.err (.cannotDeleteNonEmptyTable (some i)), .table tab)
    else if isArrayOpt (tget tab i) then
      (.err (.cannotDeleteNonEmptyArray (some i)), .table tab)
    else
      (.err (.cannotAccessBecauseTypeMismatch "table" (nameOfOpt (tget tab i))), .table tab)
  | .table tab, .index _ => (.ok none, .table tab)
  | .array a, .identifier i => (.err (.noIdentifierInArray i), .array a)
  | .array a, .index n =>
    (match aget a n with
     | none => (.panic "index out of bounds", .array a)
     | some el =>
       if isEmptyVal el true then (.ok (some el), .array (aremove a n))
       else if el.isTable then (.err (.cannotDeleteNonEmptyTable none), .array a)
       else if el.isArray then (.err (.cannotDeleteNonEmptyArray none), .array a)
       else (.err (.cannotAccessBecauseTypeMismatch "table" (name_of_val el)), .array a))
  | .string s, .identifier i => (.err (.queryingValueAsTable i), .string s)
  | .integer m, .identifier i => (.err (.queryingValueAsTable i), .integer m)
  | .float f, .identifier i => (.err (.queryingValueAsTable i), .float f)
  | .boolean b, .identifier i => (.err (.queryingValueAsTable i), .boolean b)
  | .datetime d, .identifier i => (.err (.queryingValueAsTable i), .datetime d)
  | .string s, .index n => (.err (.queryingValueAsArray n), .string s)
  | .integer m, .index n => (.err (.queryingValueAsArray n), .integer m)
  | .float f, .index n => (.err (.queryingValueAsArray n), .float f)
  | .boolean b, .index n => (.err (.queryingValueAsArray n), .boolean b)
  | .datetime d, .index n => (.err (.queryingValueAsArray n), .datetime d)

/-- The last-segment policy of `delete_with_seperator`
(`src/delete.rs`, the `Some(last_token) => ...` arm) applied at the
resolved parent. The Array + Index arm checks `idx > arr.len()` (a
strict comparison, so `idx = len` slips past the bounds check and the
subsequent `arr.index(idx)` panics). -/
def deleteLast (last : Tok) (val : Value) : Outcome (Option Value) × Value :=
  match val, last with
  | .table tab, .identifier i =>
    if isEmptyOpt (tget tab i) true then
      let (old, tab') := tremove tab i
      (.ok old, .table tab')
    else if isTableOpt (tget tab i) then
      (.err (.cannotDeleteNonEmptyTable (some i)), .table tab)
    else if isArrayOpt (tget tab i) then
      (.err (.cannotDeleteNonEmptyArray (some i)), .table tab)
    else
      (.err (.cannotAccessBecauseTypeMismatch "table" (nameOfOpt (tget tab i))), .table tab)
  | .table tab, .index n => (.err (.noIndexInTable n), .table tab)
  | .array a, .identifier i => (.err (.noIdentifierInArray i), .array a)
  | .array a, .index n =>
    if n > a.length then (.err (.arrayIndexOutOfBounds n a.length), .array a)
    else
      (match aget a n with
       | none => (.panic "index out of bounds", .array a)
       | some el =>
         if isEmptyVal el true then (.ok (some el), .array (aremove a n))
         else if el.isTable then (.err (.cannotDeleteNonEmptyTable none), .array a)
         else if el.isArray then (.err (.cannotDeleteNonEmptyArray none), .array a)
         else (.err (.cannotAccessBecauseTypeMismatch "table" (name_of_val el)), .array a))
  | .string s, .identifier i => (.err (.queryingValueAsTable i), .string s)
  | .integer m, .identifier i => (.err (.queryingValueAsTable i), .integer m)
  | .float f, .identifier i => (.err (.queryingValueAsTable i), .float f)
  | .boolean b, .identifier i => (.err (.queryingValueAsTable i), .boolean b)
  | .datetime d, .identifier i => (.err (.queryingValueAsTable i), .datetime d)
  | .string s, .index n => (.err (.queryingValueAsArray n), .string s)
  | .integer m, .index n => (.err (.queryingValueAsArray n), .integer m)
  | .float f, .index n => (.err (.queryingValueAsArray n), .float f)
  | .boolean b, .index n => (.err (.queryingValueAsArray n), .boolean b)
  | .datetime d, .index n => (.err (.queryingValueAsArray n), .datetime d)

/-- The token-level body of `delete_with_seperator`
(`src/delete.rs`): pop the last token; with no last token
(single-token chain) operate on the root via `deleteRoot`; otherwise
resolve the remaining chain with the non-creating mutable resolver
(`error_if_not_found = true`) and apply `deleteLast` at the resolved
parent. -/
def delete_tokens (doc : Value) (ts : List Tok) :
    Outcome (Option Value) × Value :=
  match pop_last ts with
  | none =>
    (match ts with
     | [t] => deleteRoot doc t
     | _ => (.panic "empty token chain", doc))
  | some (pre, last) => resolveMutThen (deleteLast last) doc pre

/-- `delete_with_seperator` of `src/delete.rs`: tokenize, then run the
token-level body. -/
def delete_with_seperator (doc : Value) (query : String) (sep : Char) :
    Outcome (Option Value) × Value :=
  match tokenize_with_seperator query sep with
  | .err e => (.err e, doc)
  | .panic m => (.panic m, doc)
  | .ok ts => delete_tokens doc ts

/-! ## Path observation and surgical update

`pathTarget doc ts` is the value the token sequence addresses (pure
lookup, per the spec's glossary notion of a path addressing a value);
`updatePath doc ts new` replaces exactly that value. These are the
observation functions the theorems are stated with; the resolvers above
are related to them by the write-back lemmas below. -/

def pathTarget : Value → List Tok → Option Value
  | v, [] => some v
  | .table t, .identifier i :: rest =>
    (match tget t i with
     | none => none
     | some sub => pathTarget sub rest)
  | .array a, .index n :: rest =>
    (match aget a n with
     | none => none
     | some el => pathTarget el rest)
  | .table _, .index _ :: _ => none
  | .array _, .identifier _ :: _ => none
  | .string _, _ :: _ => none
  | .integer _, _ :: _ => none
  | .float _, _ :: _ => none
  | .boolean _, _ :: _ => none
  | .datetime _, _ :: _ => none

def updatePath : Value → List Tok → Value → Option Value
  | _, [], new => some new
  | .table t, .identifier i :: rest, new =>
    (match tget t i with
     | none => none
     | some sub =>
       match updatePath sub rest new with
       | none => none
       | some sub' => some (.table (tset t i sub')))
  | .array a, .index n :: rest, new =>
    (match aget a n with
     | none => none
     | some el =>
       match updatePath el rest new with
       | none => none
       | some el' => some (.array (aset a n el')))
  | .table _, .index _ :: _, _ => none
  | .array _, .identifier _ :: _, _ => none
  | .string _, _ :: _, _ => none
  | .integer _, _ :: _, _ => none
  | .float _, _ :: _, _ => none
  | .boolean _, _ :: _, _ => none
  | .datetime _, _ :: _, _ => none

/-! ## Classifiers used in theorem statements -/

/-- The four traversal type-mismatch error kinds (spec section 7). -/
def isTypeMismatchError : Error → Bool
  | .noIndexInTable _ => true
  | .noIdentifierInArray _ => true
  | .queryingValueAsTable _ => true
  | .queryingValueAsArray _ => true
  | _ => false

/-- Whether an outcome is the `ArrayAccessWithInvalidIndex` error. -/
def isInvalidIndexError {α : Type} : Outcome α → Bool
  | .err .arrayAccessWithInvalidIndex => true
  | _ => false

/-- The outcome is the non-empty-container delete error matching the
kind of the target value. -/
def nonEmptyDeleteError (target : Value) (r : Outcome (Option Value)) : Bool :=
  match target, r with
  | .table _, .err (.cannotDeleteNonEmptyTable _) => true
  | .array _, .err (.cannotDeleteNonEmptyArray _) => true
  | _, _ => false

/-- A trivial continuation standing for a caller that just reads the
resolved handle (used to observe resolver behavior in isolation). -/
def probeK : Value → Outcome (Option Value) × Value := fun v => (.ok (some v), v)

/-! ## Helper lemmas -/

theorem tset_tget_self (t : List (String × Value)) (i : String) (v : Value)
    (h : tget t i = some v) : tset t i v = t := by
  induction t with
  | nil => simp [tget] at h
  | cons hd tl ih =>
    obtain ⟨k, w⟩ := hd
    by_cases hk : k = i
    · simp [tget, hk] at h
      simp [tset, hk, h]
    · simp [tget, hk] at h
      simp [tset, hk, ih h]

theorem aset_aget_self (a : List Value) : ∀ (n : Nat) (v : Value),
    aget a n = some v → aset a n v = a := by
  induction a with
  | nil => intro n v h; simp [aget] at h
  | cons x r ih =>
    intro n v h
    cases n with
    | zero =>
      simp [aget] at h
      simp [aset, h]
    | succ m =>
      simp [aget] at h
      simp [aset, ih m v h]

theorem aget_none_of_le (a : List Value) : ∀ (n : Nat),
    a.length ≤ n → aget a n = none := by
  induction a with
  | nil => intro n _; simp [aget]
  | cons x r ih =>
    intro n h
    cases n with
    | zero => simp at h
    | succ m =>
      simp at h
      simp [aget, ih m h]

theorem aget_lt (a : List Value) : ∀ (n : Nat) (v : Value),
    aget a n = some v → n < a.length := by
  induction a with
  | nil => intro n v h; simp [aget] at h
  | cons x r ih =>
    intro n v h
    cases n with
    | zero => simp
    | succ m =>
      simp [aget] at h
      simpa using ih m v h

theorem ainsert_eq_take_drop (a : List Value) : ∀ (n : Nat) (v : Value),
    n ≤ a.length → ainsert a n v = a.take n ++ v :: a.drop n := by
  induction a with
  | nil =>
    intro n v h
    simp at h
    subst h
    simp [ainsert]
  | cons x r ih =>
    intro n v h
    cases n with
    | zero => simp [ainsert]
    | succ m =>
      simp at h
      simp [ainsert, ih m v h]

theorem pop_last_concat (pre : List Tok) (t : Tok) (h : pre ≠ []) :
    pop_last (pre ++ [t]) = some (pre, t) := by
  cases pre with
  | nil => exact absurd rfl h
  | cons x pre' =>
    cases pre' with
    | nil => rfl
    | cons y pre'' =>
      show some ((x :: y :: (pre'' ++ [t])).dropLast, (y :: (pre'' ++ [t])).getLastD x)
          = some (x :: y :: pre'', t)
      rw [show x :: y :: (pre'' ++ [t]) = (x :: y :: pre'') ++ [t] from rfl,
        List.dropLast_concat,
        show y :: (pre'' ++ [t]) = (y :: pre'') ++ [t] from rfl,
        List.getLastD_eq_getLast?, List.getLast?_concat]
      rfl

theorem pathTarget_append (xs : List Tok) : ∀ (ys : List Tok) (v : Value),
    pathTarget v (xs ++ ys) = (pathTarget v xs).bind (fun p => pathTarget p ys) := by
  induction xs with
  | nil => intro ys v; simp [pathTarget]
  | cons t rest ih =>
    intro ys v
    cases v with
    | table tbl =>
      cases t with
      | identifier i =>
        cases htget : tget tbl i with
        | none => simp [pathTarget, htget]
        | some sub => simp [pathTarget, htget, ih]
      | index n => simp [pathTarget]
    | array a =>
      cases t with
      | identifier i => simp [pathTarget]
      | index n =>
        cases hag : aget a n with
        | none => simp [pathTarget, hag]
        | some el => simp [pathTarget, hag, ih]
    | string s => simp [pathTarget]
    | integer m => simp [pathTarget]
    | float f => simp [pathTarget]
    | boolean b => simp [pathTarget]
    | datetime d => simp [pathTarget]

theorem updatePath_self (ts : List Tok) : ∀ (v p : Value),
    pathTarget v ts = some p → updatePath v ts p = some v := by
  induction ts with
  | nil =>
    intro v p h
    simp [pathTarget] at h
    simp [updatePath, h]
  | cons t rest ih =>
    intro v p h
    cases v with
    | table tbl =>
      cases t with
      | identifier i =>
        cases htget : tget tbl i with
        | none => simp [pathTarget, htget] at h
        | some sub =>
          simp [pathTarget, htget] at h
          simp [updatePath, htget, ih sub p h, tset_tget_self tbl i sub htget]
      | index n => simp [pathTarget] at h
    | array a =>
      cases t with
      | identifier i => simp [pathTarget] at h
      | index n =>
        cases hag : aget a n with
        | none => simp [pathTarget, hag] at h
        | some el =>
          simp [pathTarget, hag] at h
          simp [updatePath, hag, ih el p h, aset_aget_self a n el hag]
    | string s => simp [pathTarget] at h
    | integer m => simp [pathTarget] at h
    | float f => simp [pathTarget] at h
    | boolean b => simp [pathTarget] at h
    | datetime d => simp [pathTarget] at h

/-- Write-back lemma for the (spec-modelled) non-creating mutable
resolver: when the tokens address a value, the resolver applies the
continuation there and replaces the addressed value by the node the
continuation produces. -/
theorem resolveMutThen_found {β : Type} (k : Value → Outcome β × Value)
    (ts : List Tok) : ∀ (v p u : Value),
    pathTarget v ts = some p → updatePath v ts (k p).snd = some u →
    resolveMutThen k v ts = ((k p).fst, u) := by
  induction ts with
  | nil =>
    intro v p u h hu
    simp [pathTarget] at h
    simp [updatePath] at hu
    subst h
    simp [resolveMutThen, ← hu]
  | cons t rest ih =>
    intro v p u h hu
    cases v with
    | table tbl =>
      cases t with
      | identifier i =>
        cases htget : tget tbl i with
        | none => simp [pathTarget, htget] at h
        | some sub =>
          simp [pathTarget, htget] at h
          simp [updatePath, htget] at hu
          cases hupd : updatePath sub rest (k p).snd with
          | none => simp [hupd] at hu
          | some u' =>
            simp [hupd] at hu
            simp [resolveMutThen, htget, ih sub p u' h hupd, ← hu]
      | index n => simp [pathTarget] at h
    | array a =>
      cases t with
      | identifier i => simp [pathTarget] at h
      | index n =>
        cases hag : aget a n with
        | none => simp [pathTarget, hag] at h
        | some el =>
          simp [pathTarget, hag] at h
          simp [updatePath, hag] at hu
          cases hupd : updatePath el rest (k p).snd with
          | none => simp [hupd] at hu
          | some u' =>
            simp [hupd] at hu
            simp [resolveMutThen, hag, ih el p u' h hupd, ← hu]
    | string s => simp [pathTarget] at h
    | integer m => simp [pathTarget] at h
    | float f => simp [pathTarget] at h
    | boolean b => simp [pathTarget] at h
    | datetime d => simp [pathTarget] at h

/-- Write-back lemma for the creating resolver along an already-present
path: no creation happens, the continuation is applied at the addressed
value and its node is written back. -/
theorem resolveCreating_found {β : Type} (k : Value → Outcome β × Value)
    (ts : List Tok) : ∀ (v p u : Value),
    pathTarget v ts = some p → updatePath v ts (k p).snd = some u →
    resolveCreating k v ts = ((k p).fst, u) := by
  induction ts with
  | nil =>
    intro v p u h hu
    simp [pathTarget] at h
    simp [updatePath] at hu
    subst h
    simp [resolveCreating, ← hu]
  | cons t rest ih =>
    intro v p u h hu
    cases v with
    | table tbl =>
      cases t with
      | identifier i =>
        cases htget : tget tbl i with
        | none => simp [pathTarget, htget] at h
        | some sub =>
          simp [pathTarget, htget] at h
          simp [updatePath, htget] at hu
          cases hupd : updatePath sub rest (k p).snd with
          | none => simp [hupd] at hu
          | some u' =>
            simp [hupd] at hu
            simp [resolveCreating, htget, ih sub p u' h hupd, ← hu]
      | index n => simp [pathTarget] at h
    | array a =>
      cases t with
      | identifier i => simp [pathTarget] at h
      | index n =>
        cases hag : aget a n with
        | none => simp [pathTarget, hag] at h
        | some el =>
          simp [pathTarget, hag] at h
          simp [updatePath, hag] at hu
          cases hupd : updatePath el rest (k p).snd with
          | none => simp [hupd] at hu
          | some u' =>
            simp [hupd] at hu
            simp [resolveCreating, hag, ih el p u' h hupd, ← hu]
    | string s => simp [pathTarget] at h
    | integer m => simp [pathTarget] at h
    | float f => simp [pathTarget] at h
    | boolean b => simp [pathTarget] at h
    | datetime d => simp [pathTarget] at h

theorem digit_not_bracket (c : Char) (h : c.isDigit = true) :
    (c != '[' && c != ']') = true := by
  by_cases h1 : c = '['
  · subst h1; exact absurd h (by decide)
  · by_cases h2 : c = ']'
    · subst h2; exact absurd h (by decide)
    · simp [h1, h2]

theorem filter_digits_id (mid : List Char) (h : mid.all Char.isDigit = true) :
    mid.filter (fun c => c != '[' && c != ']') = mid := by
  induction mid with
  | nil => rfl
  | cons c r ih =>
    simp only [List.all_cons, Bool.and_eq_true] at h
    simp [List.filter_cons, digit_not_bracket c h.1, ih h.2]

theorem withoutBrackets_digits (mid : List Char) (h : mid.all Char.isDigit = true) :
    withoutBrackets ('[' :: mid ++ [']']) = mid := by
  simp [withoutBrackets, List.filter_cons, List.filter_append, filter_digits_id mid h]

theorem hasArrayBrackets_bracketed (mid : List Char) :
    hasArrayBrackets ('[' :: mid ++ [']']) = true := by
  simp [hasArrayBrackets, List.getLastD_eq_getLast?, List.getLast?_concat]

theorem isNdDigit_of_isDigit (c : Char) (h : c.isDigit = true) :
    isNdDigit c = true := by
  simp [isNdDigit, h]

theorem regexIndexMatch_bracketed (mid : List Char) (hne : mid ≠ [])
    (hd : mid.all Char.isDigit = true) :
    regexIndexMatch ('[' :: mid ++ [']']) = true := by
  have hnd : mid.all isNdDigit = true := by
    simp only [List.all_eq_true] at hd ⊢
    intro c hc
    exact isNdDigit_of_isDigit c (hd c hc)
  simp [regexIndexMatch, List.getLastD_eq_getLast?, List.getLast?_concat,
    List.dropLast_concat, hne, hnd]

theorem mk_token_object_not_invalid (s : List Char) :
    isInvalidIndexError (mk_token_object s) = false := by
  unfold mk_token_object
  split
  · rfl
  · split
    · rfl
    · split
      · dsimp only
        split
        · split
          · rfl
          · rfl
        · rfl
      · rfl

theorem outcome_map_not_invalid {α β : Type} (f : α → β) (o : Outcome α) :
    isInvalidIndexError (o.map f) = isInvalidIndexError o := by
  cases o with
  | ok a => rfl
  | err e => cases e <;> rfl
  | panic m => rfl

theorem tokenizeRest_not_invalid (segs : List (List Char)) :
    isInvalidIndexError (tokenizeRest segs) = false := by
  induction segs with
  | nil => rfl
  | cons s rest ih =>
    unfold tokenizeRest
    split
    · rfl
    · cases hm : mk_token_object s with
      | ok tok => rw [outcome_map_not_invalid]; exact ih
      | err e =>
        have h2 := mk_token_object_not_invalid s
        rw [hm] at h2
        cases e <;> simp_all [isInvalidIndexError]
      | panic m => rfl

/-- The read-only resolver traverses an addressed path exactly like the
pure lookup and then continues at the addressed value. -/
theorem resolveNonMut_skip (pre : List Tok) : ∀ (v p : Value) (suffix : List Tok),
    pathTarget v pre = some p →
    resolveNonMut false v (pre ++ suffix) = resolveNonMut false p suffix := by
  induction pre with
  | nil =>
    intro v p suffix h
    simp [pathTarget] at h
    subst h
    rfl
  | cons t rest ih =>
    intro v p suffix h
    cases v with
    | table tbl =>
      cases t with
      | identifier i =>
        cases htget : tget tbl i with
        | none => simp [pathTarget, htget] at h
        | some sub =>
          simp [pathTarget, htget] at h
          simp [resolveNonMut, htget, ih sub p suffix h]
      | index n => simp [pathTarget] at h
    | array a =>
      cases t with
      | identifier i => simp [pathTarget] at h
      | index n =>
        cases hag : aget a n with
        | none => simp [pathTarget, hag] at h
        | some el =>
          simp [pathTarget, hag] at h
          simp [resolveNonMut, hag, ih el p suffix h]
    | string s => simp [pathTarget] at h
    | integer m => simp [pathTarget] at h
    | float f => simp [pathTarget] at h
    | boolean b => simp [pathTarget] at h
    | datetime d => simp [pathTarget] at h

/-- Every error of the read-only resolver (absence-tolerating flag) is
one of the four traversal type-mismatch kinds. -/
theorem resolveNonMut_err_tm (ts : List Tok) : ∀ (v : Value) (e : Error),
    resolveNonMut false v ts = .err e → isTypeMismatchError e = true := by
  induction ts with
  | nil => intro v e h; simp [resolveNonMut] at h
  | cons t rest ih =>
    intro v e h
    cases v with
    | table tbl =>
      cases t with
      | identifier i =>
        cases htget : tget tbl i with
        | none => simp [resolveNonMut, htget] at h
        | some sub =>
          simp only [resolveNonMut, htget] at h
          exact ih sub e h
      | index n =>
        simp [resolveNonMut] at h
        simp [← h, isTypeMismatchError]
    | array a =>
      cases t with
      | identifier i =>
        simp [resolveNonMut] at h
        simp [← h, isTypeMismatchError]
      | index n =>
        cases hag : aget a n with
        | none => simp [resolveNonMut, hag] at h
        | some el =>
          simp only [resolveNonMut, hag] at h
          exact ih el e h
    | string s =>
      cases t with
      | identifier i => simp [resolveNonMut] at h; simp [← h, isTypeMismatchError]
      | index n => simp [resolveNonMut] at h; simp [← h, isTypeMismatchError]
    | integer m =>
      cases t with
      | identifier i => simp [resolveNonMut] at h; simp [← h, isTypeMismatchError]
      | index n => simp [resolveNonMut] at h; simp [← h, isTypeMismatchError]
    | float f =>
      cases t with
      | identifier i => simp [resolveNonMut] at h; simp [← h, isTypeMismatchError]
      | index n => simp [resolveNonMut] at h; simp [← h, isTypeMismatchError]
    | boolean b =>
      cases t with
      | identifier i => simp [resolveNonMut] at h; simp [← h, isTypeMismatchError]
      | index n => simp [resolveNonMut] at h; simp [← h, isTypeMismatchError]
    | datetime d =>
      cases t with
      | identifier i => simp [resolveNonMut] at h; simp [← h, isTypeMismatchError]
      | index n => simp [resolveNonMut] at h; simp [← h, isTypeMismatchError]

/-- The read-only resolver never panics: every arm returns `ok` or a
typed error, for either setting of the absence flag. -/
theorem resolveNonMut_never_panics (ts : List Tok) : ∀ (eif : Bool) (v : Value),
    (resolveNonMut eif v ts).isPanic = false := by
  induction ts with
  | nil => intro eif v; cases v <;> rfl
  | cons t rest ih =>
    intro eif v
    cases v with
    | table tbl =>
      cases t with
      | identifier i =>
        cases htget : tget tbl i with
        | none => cases eif <;> simp [resolveNonMut, htget, Outcome.isPanic]
        | some sub =>
          simp only [resolveNonMut, htget]
          exact ih eif sub
      | index n => rfl
    | array a =>
      cases t with
      | identifier i => rfl
      | index n =>
        cases hag : aget a n with
        | none => cases eif <;> simp [resolveNonMut, hag, Outcome.isPanic]
        | some el =>
          simp only [resolveNonMut, hag]
          exact ih eif el
    | string s => cases t <;> rfl
    | integer m => cases t <;> rfl
    | float f => cases t <;> rfl
    | boolean b => cases t <;> rfl
    | datetime d => cases t <;> rfl

/-! ## Claim theorems -/

/-- C1 (counterexample): the claim says insert on a single-segment path
terminates with a typed result; in the code `tokens.pop_last().unwrap()`
panics on a single-segment path, so inserting at path "a" into the empty
table document panics rather than returning Ok or a typed Err. -/
theorem c1_counterexample :
    (insert_with_seperator (.table []) "a" '.' (.integer 1)).fst.isPanic = true
    ∧ (insert_with_seperator (.table []) "a" '.' (.integer 1)).fst.isOk = false
    ∧ (insert_with_seperator (.table []) "a" '.' (.integer 1)).fst.isErr = false :=
  ⟨rfl, rfl, rfl⟩

/-- C1 (amended): the public operations are not total. The three edge
cases the claim names do not return a typed result but panic: tokenize
on a bracketed all-digit segment whose number exceeds the machine word
(2 ^ 64 here), insert on a single-segment path (unwrap of pop_last),
and delete with an Index last token on a root Array when the index is
at or past the length (unchecked array indexing). By contrast the read
traversal after a successful tokenize never panics: read always
returns Ok or a typed Err. -/
theorem c1_amended :
    (tokenize_with_seperator "[18446744073709551616]" '.').isPanic = true
    ∧ (insert_with_seperator (.table []) "a" '.' (.integer 1)).fst.isPanic = true
    ∧ (delete_with_seperator (.array [.integer 1, .integer 2, .integer 3]) "[22]" '.').fst.isPanic
        = true
    ∧ ∀ (doc : Value) (q : String) (sep : Char) (ts : List Tok),
        tokenize_with_seperator q sep = .ok ts →
        (read_with_seperator doc q sep).isPanic = false := by
  refine ⟨rfl, rfl, rfl, ?_⟩
  intro doc q sep ts htok
  have h1 : read_with_seperator doc q sep = resolveNonMut false doc ts := by
    unfold read_with_seperator
    rw [htok]
  rw [h1]
  exact resolveNonMut_never_panics ts false doc

/-- C1 (witness): reading path "a" from the empty table document does
not panic (tokenization succeeds and the traversal returns a typed
result). -/
theorem c1_witness :
    (read_with_seperator (.table []) "a" '.').isPanic = false :=
  c1_amended.2.2.2 (.table []) "a" '.' [.identifier "a"] rfl

/-- C6 (counterexample): the claim says a segment starting with a
bracket but not ending with one is rejected with a parse failure; the
code accepts "[1" as an Identifier verbatim (has_array_brackets needs
both brackets). -/
theorem c6_counterexample :
    tokenize_with_seperator "[1" '.' = .ok [.identifier "[1"]
    ∧ (tokenize_with_seperator "[1" '.').isErr = false :=
  ⟨rfl, rfl⟩

/-- C6 (amended): the tokenizer classifies a non-empty segment as an
Index token iff it fully matches a bracketed run of Unicode decimal
digits that are all ASCII with value fitting the machine word (the
digits giving the index value); a segment with both outer brackets
whose inner part is empty or contains a non-digit is rejected with
ArrayAccessWithoutIndex; a segment that does not both start with a
bracket and end with one — including one-sided bracket segments — is
accepted as an Identifier verbatim, not rejected; and a bracketed run
of non-ASCII Unicode decimal digits (here Arabic-Indic three,
U+0663) matches the regex and panics at the usize-parse unwrap. -/
theorem c6_amended (c : Char) (cs : List Char) :
    (hasArrayBrackets (c :: cs) = false →
      mk_token_object (c :: cs) = .ok (.identifier (String.mk (c :: cs))))
    ∧ (∀ mid : List Char, mid ≠ [] → mid.all Char.isDigit = true →
        digitsToNat mid ≤ USIZE_MAX → c :: cs = '[' :: mid ++ [']'] →
        mk_token_object (c :: cs) = .ok (.index (digitsToNat mid)))
    ∧ (hasArrayBrackets (c :: cs) = true → regexIndexMatch (c :: cs) = false →
        mk_token_object (c :: cs) = .err .arrayAccessWithoutIndex)
    ∧ (∀ n : Nat, mk_token_object (c :: cs) = .ok (.index n) →
        regexIndexMatch (c :: cs) = true
        ∧ (withoutBrackets (c :: cs)).all Char.isDigit = true
        ∧ digitsToNat (withoutBrackets (c :: cs)) = n)
    ∧ mk_token_object ['[', Char.ofNat 0x663, ']']
        = .panic "called Result::unwrap on an Err value" := by
  refine ⟨?_, ?_, ?_, ?_, rfl⟩
  · intro h
    simp [mk_token_object, h]
  · intro mid hne hd hmax heq
    rw [heq]
    have h1 := hasArrayBrackets_bracketed mid
    have h2 := regexIndexMatch_bracketed mid hne hd
    have h3 := withoutBrackets_digits mid hd
    unfold mk_token_object
    rw [if_neg (by simp)]
    rw [h1, h2, h3]
    simp [hd, hmax]
  · intro h1 h2
    simp [mk_token_object, h1, h2]
  · intro n h
    by_cases h1 : hasArrayBrackets (c :: cs) = true
    · by_cases h2 : regexIndexMatch (c :: cs) = true
      · refine ⟨h2, ?_⟩
        by_cases h3 : (withoutBrackets (c :: cs)).all Char.isDigit = true
        · refine ⟨h3, ?_⟩
          by_cases h4 : digitsToNat (withoutBrackets (c :: cs)) ≤ USIZE_MAX
          · simp [mk_token_object, h1, h2, h3, h4] at h
            exact h
          · simp [mk_token_object, h1, h2, h3, h4] at h
        · rw [Bool.not_eq_true] at h3
          simp [mk_token_object, h1, h2, h3] at h
      · rw [Bool.not_eq_true] at h2
        simp [mk_token_object, h1, h2] at h
    · rw [Bool.not_eq_true] at h1
      simp [mk_token_object, h1] at h

/-- C6 (witness): instantiating the amended classification at the
segment "[42]" yields the Index token 42. -/
theorem c6_witness : mk_token_object ['[', '4', '2', ']'] = .ok (.index 42) :=
  (c6_amended '[' ['4', '2', ']']).2.1 ['4', '2'] (by decide) (by decide) (by decide) rfl

/-- C9 (counterexample): the claim says the bracketed non-digit segment
"[a]" fails with the distinct array-access-with-invalid-index error; in
the code it fails with ArrayAccessWithoutIndex (the single regex test
cannot distinguish the two cases). -/
theorem c9_counterexample :
    tokenize_with_seperator "[a]" '.' = .err .arrayAccessWithoutIndex
    ∧ isInvalidIndexError (tokenize_with_seperator "[a]" '.') = false :=
  ⟨rfl, rfl⟩

/-- C9 (amended): both the empty-bracket segment and a bracketed
non-digit segment fail with ArrayAccessWithoutIndex, and the tokenizer
never produces the ArrayAccessWithInvalidIndex error on any query and
separator (the variant exists in the taxonomy but is dead for the
tokenizer). -/
theorem c9_amended :
    tokenize_with_seperator "[]" '.' = .err .arrayAccessWithoutIndex
    ∧ tokenize_with_seperator "[a]" '.' = .err .arrayAccessWithoutIndex
    ∧ ∀ (q : String) (sep : Char),
        isInvalidIndexError (tokenize_with_seperator q sep) = false := by
  refine ⟨rfl, rfl, ?_⟩
  intro q sep
  unfold tokenize_with_seperator
  split
  · rfl
  · split
    · rfl
    · split
      · rfl
      · rename_i g gs heq hemp
        cases hm : mk_token_object g with
        | ok tok => rw [outcome_map_not_invalid]; exact tokenizeRest_not_invalid gs
        | err e =>
          have h2 := mk_token_object_not_invalid g
          rw [hm] at h2
          cases e <;> simp_all [isInvalidIndexError]
        | panic m => rfl

/-- C8 (counterexample): the claim says the creating resolver returns
QueryingValueAsTable / QueryingValueAsArray when it meets a scalar with
tokens remaining; in the code both scalar arms are `unimplemented`
panics, so resolving an Identifier or an Index token against the scalar
1 panics and produces no typed error. -/
theorem c8_counterexample :
    resolveCreating probeK (.integer 1) [.identifier "b"]
      = (.panic "not implemented", .integer 1)
    ∧ resolveCreating probeK (.integer 1) [.index 0]
      = (.panic "not implemented", .integer 1)
    ∧ (resolveCreating probeK (.integer 1) [.identifier "b"]).fst.isErr = false :=
  ⟨rfl, rfl, rfl⟩

/-- C8 (amended): on a scalar value with a token remaining the creating
resolver panics with `unimplemented` (leaving the value unchanged),
unlike the read-only resolver, which returns the typed
QueryingValueAsTable / QueryingValueAsArray error for the same
configuration. -/
theorem c8_amended {β : Type} (k : Value → Outcome β × Value) (v : Value)
    (t : Tok) (rest : List Tok) (h : isScalar v = true) :
    resolveCreating k v (t :: rest) = (.panic "not implemented", v)
    ∧ resolveNonMut false v (t :: rest) =
        .err (match t with
              | .identifier i => .queryingValueAsTable i
              | .index n => .queryingValueAsArray n) := by
  cases v with
  | table tbl => simp [isScalar] at h
  | array a => simp [isScalar] at h
  | string s => cases t <;> exact ⟨rfl, rfl⟩
  | integer m => cases t <;> exact ⟨rfl, rfl⟩
  | float f => cases t <;> exact ⟨rfl, rfl⟩
  | boolean b => cases t <;> exact ⟨rfl, rfl⟩
  | datetime d => cases t <;> exact ⟨rfl, rfl⟩

/-- C8 (witness): the amended statement at the scalar `true` with the
pending Identifier token "x". -/
theorem c8_witness :
    resolveCreating probeK (.boolean true) [.identifier "x"]
      = (.panic "not implemented", .boolean true)
    ∧ resolveNonMut false (.boolean true) [.identifier "x"]
      = .err (.queryingValueAsTable "x") :=
  c8_amended probeK (.boolean true) (.identifier "x") [] rfl

/-- C10: when the creating resolver reaches an Array with an Index at or
past the length and a further token remains, it appends exactly one
placeholder element (an empty Table for a pending Identifier, an empty
Array for a pending Index) and then aborts with the
`panic("Cannot do this")`; consequently an insert failing on this edge
leaves the document mutated, as the concrete insert of 1 at
"a.[0].b.c" into the document with a at an empty array shows: the
insert panics yet the document has gained the placeholder table. -/
theorem c10_theorem {β : Type} (k : Value → Outcome β × Value) (a : List Value)
    (n : Nat) (next : Tok) (rest : List Tok) (h : a.length ≤ n) :
    resolveCreating k (.array a) (.index n :: next :: rest)
      = (.panic "Cannot do this", .array (a ++ [placeholderFor next]))
    ∧ insert_with_seperator (.table [("a", .array [])]) "a.[0].b.c" '.' (.integer 1)
      = (.panic "Cannot do this", .table [("a", .array [.table []])]) := by
  constructor
  · simp [resolveCreating, aget_none_of_le a n h]
  · rfl

/-- C10 (witness): the statement at the empty root array with index 0
and pending Identifier "b": one empty Table is appended and the
resolver aborts. -/
theorem c10_witness :
    resolveCreating probeK (.array []) [.index 0, .identifier "b"]
      = (.panic "Cannot do this", .array [.table []]) :=
  ((c10_theorem probeK [] 0 (.identifier "b") [] (by decide)).1).trans rfl

/-- C4: descending through a Table by an absent Identifier, the creating
resolver fabricates a fresh empty Table (never an Array) under that key
and continues inside it; and concretely, inserting 1 at path a.b.c
into the empty table document produces the document with a table at a,
a table at b inside it, and c bound to 1. -/
theorem c4_theorem {β : Type} (k : Value → Outcome β × Value)
    (tbl : List (String × Value)) (i : String) (rest : List Tok)
    (h : tget tbl i = none) :
    resolveCreating k (.table tbl) (.identifier i :: rest)
      = ((resolveCreating k (.table []) rest).fst,
         .table (tset tbl i (resolveCreating k (.table []) rest).snd))
    ∧ insert_with_seperator (.table []) "a.b.c" '.' (.integer 1)
      = (.ok none, .table [("a", .table [("b", .table [("c", .integer 1)])])]) := by
  constructor
  · simp [resolveCreating, h]
  · rfl

/-- C4 (witness): the fabrication rule at the empty root table with
absent key "x" and no further tokens. -/
theorem c4_witness :
    resolveCreating probeK (.table []) [.identifier "x"]
      = (.ok (some (.table [])), .table [("x", .table [])]) :=
  ((c4_theorem probeK [] "x" [] rfl).1).trans rfl

/-- Root-branch delete of a value that exists and is a non-empty
container: the matching non-empty error, document part untouched. -/
theorem deleteRoot_nonempty (doc target : Value) (last : Tok)
    (htar : pathTarget doc [last] = some target)
    (hcont : isNonEmptyContainer target = true) :
    nonEmptyDeleteError target (deleteRoot doc last).fst = true
    ∧ (deleteRoot doc last).snd = doc := by
  cases doc with
  | table tab =>
    cases last with
    | identifier i =>
      cases htget : tget tab i with
      | none => simp [pathTarget, htget] at htar
      | some sub =>
        simp [pathTarget, htget] at htar
        subst htar
        cases sub with
        | table tt =>
          simp [isNonEmptyContainer] at hcont
          simp [deleteRoot, htget, isEmptyOpt, isEmptyVal, hcont, isTableOpt,
            Value.isTable, nonEmptyDeleteError]
        | array aa =>
          simp [isNonEmptyContainer] at hcont
          simp [deleteRoot, htget, isEmptyOpt, isEmptyVal, hcont, isTableOpt,
            isArrayOpt, Value.isTable, Value.isArray, nonEmptyDeleteError]
        | string s => simp [isNonEmptyContainer] at hcont
        | integer m => simp [isNonEmptyContainer] at hcont
        | float f => simp [isNonEmptyContainer] at hcont
        | boolean b => simp [isNonEmptyContainer] at hcont
        | datetime d => simp [isNonEmptyContainer] at hcont
    | index n => simp [pathTarget] at htar
  | array a =>
    cases last with
    | identifier i => simp [pathTarget] at htar
    | index n =>
      cases hag : aget a n with
      | none => simp [pathTarget, hag] at htar
      | some el =>
        simp [pathTarget, hag] at htar
        subst htar
        cases el with
        | table tt =>
          simp [isNonEmptyContainer] at hcont
          simp [deleteRoot, hag, isEmptyVal, hcont, Value.isTable, nonEmptyDeleteError]
        | array aa =>
          simp [isNonEmptyContainer] at hcont
          simp [deleteRoot, hag, isEmptyVal, hcont, Value.isTable, Value.isArray,
            nonEmptyDeleteError]
        | string s => simp [isNonEmptyContainer] at hcont
        | integer m => simp [isNonEmptyContainer] at hcont
        | float f => simp [isNonEmptyContainer] at hcont
        | boolean b => simp [isNonEmptyContainer] at hcont
        | datetime d => simp [isNonEmptyContainer] at hcont
  | string s => cases last <;> simp [pathTarget] at htar
  | integer m => cases last <;> simp [pathTarget] at htar
  | float f => cases last <;> simp [pathTarget] at htar
  | boolean b => cases last <;> simp [pathTarget] at htar
  | datetime d => cases last <;> simp [pathTarget] at htar

/-- Last-segment delete at a resolved parent when the addressed entry
exists and is a non-empty container: the matching non-empty error,
parent untouched. -/
theorem deleteLast_nonempty (parent target : Value) (last : Tok)
    (htar : pathTarget parent [last] = some target)
    (hcont : isNonEmptyContainer target = true) :
    nonEmptyDeleteError target (deleteLast last parent).fst = true
    ∧ (deleteLast last parent).snd = parent := by
  cases parent with
  | table tab =>
    cases last with
    | identifier i =>
      cases htget : tget tab i with
      | none => simp [pathTarget, htget] at htar
      | some sub =>
        simp [pathTarget, htget] at htar
        subst htar
        cases sub with
        | table tt =>
          simp [isNonEmptyContainer] at hcont
          simp [deleteLast, htget, isEmptyOpt, isEmptyVal, hcont, isTableOpt,
            Value.isTable, nonEmptyDeleteError]
        | array aa =>
          simp [isNonEmptyContainer] at hcont
          simp [deleteLast, htget, isEmptyOpt, isEmptyVal, hcont, isTableOpt,
            isArrayOpt, Value.isTable, Value.isArray, nonEmptyDeleteError]
        | string s => simp [isNonEmptyContainer] at hcont
        | integer m => simp [isNonEmptyContainer] at hcont
        | float f => simp [isNonEmptyContainer] at hcont
        | boolean b => simp [isNonEmptyContainer] at hcont
        | datetime d => simp [isNonEmptyContainer] at hcont
    | index n => simp [pathTarget] at htar
  | array a =>
    cases last with
    | identifier i => simp [pathTarget] at htar
    | index n =>
      cases hag : aget a n with
      | none => simp [pathTarget, hag] at htar
      | some el =>
        simp [pathTarget, hag] at htar
        subst htar
        have hlt : n < a.length := aget_lt a n el hag
        have hngt : ¬(n > a.length) := by omega
        cases el with
        | table tt =>
          simp [isNonEmptyContainer] at hcont
          simp [deleteLast, hngt, hag, isEmptyVal, hcont, Value.isTable,
            nonEmptyDeleteError]
        | array aa =>
          simp [isNonEmptyContainer] at hcont
          simp [deleteLast, hngt, hag, isEmptyVal, hcont, Value.isTable,
            Value.isArray, nonEmptyDeleteError]
        | string s => simp [isNonEmptyContainer] at hcont
        | integer m => simp [isNonEmptyContainer] at hcont
        | float f => simp [isNonEmptyContainer] at hcont
        | boolean b => simp [isNonEmptyContainer] at hcont
        | datetime d => simp [isNonEmptyContainer] at hcont
  | string s => cases last <;> simp [pathTarget] at htar
  | integer m => cases last <;> simp [pathTarget] at htar
  | float f => cases last <;> simp [pathTarget] at htar
  | boolean b => cases last <;> simp [pathTarget] at htar
  | datetime d => cases last <;> simp [pathTarget] at htar

/-- C2: for every document and tokenizable path addressing a value that
is a non-empty Table or Array, delete fails with the corresponding
non-empty-container error (CannotDeleteNonEmptyTable respectively
CannotDeleteNonEmptyArray) and the document after the failed call is
exactly the document before it. -/
theorem c2_theorem (doc target : Value) (q : String) (sep : Char) (ts : List Tok)
    (htok : tokenize_with_seperator q sep = .ok ts)
    (hne : ts ≠ [])
    (htar : pathTarget doc ts = some target)
    (hcont : isNonEmptyContainer target = true) :
    nonEmptyDeleteError target (delete_with_seperator doc q sep).fst = true
    ∧ (delete_with_seperator doc q sep).snd = doc := by
  rcases List.eq_nil_or_concat ts with rfl | ⟨pre, last, rfl⟩
  · exact absurd rfl hne
  · rw [List.concat_eq_append] at htok htar
    cases pre with
    | nil =>
      have h1 : delete_with_seperator doc q sep = deleteRoot doc last := by
        unfold delete_with_seperator
        rw [htok]
        rfl
      rw [h1]
      rw [List.nil_append] at htar
      exact deleteRoot_nonempty doc target last htar hcont
    | cons p0 pre' =>
      have hprne : (p0 :: pre' : List Tok) ≠ [] := by simp
      have h1 : delete_with_seperator doc q sep
          = resolveMutThen (deleteLast last) doc (p0 :: pre') := by
        unfold delete_with_seperator
        rw [htok]
        show delete_tokens doc ((p0 :: pre') ++ [last]) = _
        unfold delete_tokens
        rw [pop_last_concat (p0 :: pre') last hprne]
      rw [pathTarget_append] at htar
      cases hpar : pathTarget doc (p0 :: pre') with
      | none => rw [hpar] at htar; simp at htar
      | some parent =>
        rw [hpar] at htar
        simp only [Option.some_bind] at htar
        obtain ⟨hcls, hsnd⟩ := deleteLast_nonempty parent target last htar hcont
        have hfound := resolveMutThen_found (deleteLast last) (p0 :: pre') doc parent doc
          hpar (by rw [hsnd]; exact updatePath_self (p0 :: pre') doc parent hpar)
        rw [h1, hfound]
        exact ⟨hcls, rfl⟩

/-- C2 (witness): deleting path "table" when the document binds table to
the non-empty table with a bound to 1 fails with the non-empty-table
error and leaves the document unchanged. -/
theorem c2_witness :
    nonEmptyDeleteError (.table [("a", .integer 1)])
        (delete_with_seperator (.table [("table", .table [("a", .integer 1)])]) "table" '.').fst
      = true
    ∧ (delete_with_seperator (.table [("table", .table [("a", .integer 1)])]) "table" '.').snd
      = .table [("table", .table [("a", .integer 1)])] :=
  c2_theorem _ (.table [("a", .integer 1)]) _ _ [.identifier "table"]
    rfl (by decide) rfl rfl

/-- C3: for an insert whose path splits into a non-empty token sequence
addressing an Array parent of length len and a final Index token i, the
operation returns Ok None (never a prior value) and the document is the
original with that array replaced: for i < len the new value sits
before position i with every element formerly at position at least i
shifted right by one (take i, then the value, then drop i); for i at or
past len the value is appended at the end, the excess magnitude of i
ignored. -/
theorem c3_theorem (doc newDoc value : Value) (q : String) (sep : Char)
    (pre : List Tok) (i : Nat) (a : List Value)
    (htok : tokenize_with_seperator q sep = .ok (pre ++ [.index i]))
    (hpre : pre ≠ [])
    (hparent : pathTarget doc pre = some (.array a))
    (hupd : updatePath doc pre
        (.array (if i < a.length then a.take i ++ value :: a.drop i else a ++ [value]))
        = some newDoc) :
    insert_with_seperator doc q sep value = (.ok none, newDoc) := by
  have hk : insertLast (.index i) value (.array a)
      = (.ok none,
         .array (if i < a.length then a.take i ++ value :: a.drop i else a ++ [value])) := by
    by_cases hlt : i < a.length
    · simp [insertLast, hlt, ainsert_eq_take_drop a i value (le_of_lt hlt)]
    · simp [insertLast, hlt]
  have h1 : insert_with_seperator doc q sep value
      = resolveCreating (insertLast (.index i) value) doc pre := by
    unfold insert_with_seperator
    rw [htok]
    show insert_tokens doc value (pre ++ [.index i]) = _
    unfold insert_tokens
    rw [pop_last_concat pre (.index i) hpre]
  have hfound := resolveCreating_found (insertLast (.index i) value) pre doc (.array a)
    newDoc hparent (by rw [hk]; exact hupd)
  rw [h1, hfound, hk]

/-- C3 (witness): inserting 6 at path "array.[2]" into the document
whose array holds 1 to 5 shifts the tail right: the array becomes
1, 2, 6, 3, 4, 5 and the call returns Ok None. -/
theorem c3_witness :
    insert_with_seperator
        (.table [("array",
          .array [.integer 1, .integer 2, .integer 3, .integer 4, .integer 5])])
        "array.[2]" '.' (.integer 6)
      = (.ok none,
         .table [("array",
           .array [.integer 1, .integer 2, .integer 6, .integer 3, .integer 4,
             .integer 5])]) :=
  c3_theorem _ _ _ _ _ [.identifier "array"] 2
    [.integer 1, .integer 2, .integer 3, .integer 4, .integer 5]
    rfl (by decide) rfl rfl

/-- C7 (counterexample): the claim says the boundary case index = len
also reports ArrayIndexOutOfBounds; in the code the bounds check is the
strict `idx > arr.len()`, so deleting "array.[1]" when array holds one
element panics on the out-of-bounds indexing instead of returning the
typed error. -/
theorem c7_counterexample :
    (delete_with_seperator (.table [("array", .array [.integer 1])]) "array.[1]" '.').fst
      = .panic "index out of bounds"
    ∧ (delete_with_seperator (.table [("array", .array [.integer 1])]) "array.[1]" '.').fst.isErr
      = false :=
  ⟨rfl, rfl⟩

/-- C7 (amended): when the resolved parent of a delete is an Array of
length len and the final Index token is strictly greater than len, the
operation fails with ArrayIndexOutOfBounds reporting the index and the
actual length, leaving the document unchanged; at the boundary
index = len the code panics instead (see the counterexample). -/
theorem c7_amended (doc : Value) (q : String) (sep : Char) (pre : List Tok)
    (i : Nat) (a : List Value)
    (htok : tokenize_with_seperator q sep = .ok (pre ++ [.index i]))
    (hpre : pre ≠ [])
    (hparent : pathTarget doc pre = some (.array a))
    (hgt : a.length < i) :
    delete_with_seperator doc q sep = (.err (.arrayIndexOutOfBounds i a.length), doc) := by
  have hk : deleteLast (.index i) (.array a)
      = (.err (.arrayIndexOutOfBounds i a.length), .array a) := by
    simp [deleteLast, hgt]
  have h1 : delete_with_seperator doc q sep
      = resolveMutThen (deleteLast (.index i)) doc pre := by
    unfold delete_with_seperator
    rw [htok]
    show delete_tokens doc (pre ++ [.index i]) = _
    unfold delete_tokens
    rw [pop_last_concat pre (.index i) hpre]
  have hfound := resolveMutThen_found (deleteLast (.index i)) pre doc (.array a) doc
    hparent (by rw [hk]; exact updatePath_self pre doc (.array a) hparent)
  rw [h1, hfound, hk]

/-- C7 (witness): deleting path "array.[22]" from the document whose
array holds 1, 2, 3 yields the out-of-bounds error reporting index 22
and length 3, leaving the document unchanged. -/
theorem c7_witness :
    delete_with_seperator
        (.table [("array", .array [.integer 1, .integer 2, .integer 3])]) "array.[22]" '.'
      = (.err (.arrayIndexOutOfBounds 22 3),
         .table [("array", .array [.integer 1, .integer 2, .integer 3])]) :=
  c7_amended _ _ _ [.identifier "array"] 22 [.integer 1, .integer 2, .integer 3]
    rfl (by decide) rfl (by decide)

/-- C5: for every document and tokenizable path, read returns Ok None
whenever some Identifier segment of the path addresses a key absent
from the Table reached by the segments before it (absence
short-circuits to None and is never an error), and whenever read fails
the error is one of the four traversal type-mismatch kinds (index on
Table, identifier on Array, identifier or index on a scalar). -/
theorem c5_theorem :
    (∀ (doc : Value) (q : String) (sep : Char) (pre : List Tok) (i : String)
      (rest : List Tok) (tbl : List (String × Value)),
      tokenize_with_seperator q sep = .ok (pre ++ .identifier i :: rest) →
      pathTarget doc pre = some (.table tbl) →
      tget tbl i = none →
      read_with_seperator doc q sep = .ok none)
    ∧ (∀ (doc : Value) (q : String) (sep : Char) (ts : List Tok) (e : Error),
      tokenize_with_seperator q sep = .ok ts →
      read_with_seperator doc q sep = .err e →
      isTypeMismatchError e = true) := by
  constructor
  · intro doc q sep pre i rest tbl htok hpar habs
    have h1 : read_with_seperator doc q sep
        = resolveNonMut false doc (pre ++ .identifier i :: rest) := by
      unfold read_with_seperator
      rw [htok]
    rw [h1, resolveNonMut_skip pre doc (.table tbl) (.identifier i :: rest) hpar]
    simp [resolveNonMut, habs]
  · intro doc q sep ts e htok herr
    have h1 : read_with_seperator doc q sep = resolveNonMut false doc ts := by
      unfold read_with_seperator
      rw [htok]
    rw [h1] at herr
    exact resolveNonMut_err_tm ts doc e herr

/-- C5 (witness): reading path "table.a" when table is bound to an
empty table returns Ok None (the key a is simply absent). -/
theorem c5_witness :
    read_with_seperator (.table [("table", .table [])]) "table.a" '.' = .ok none :=
  c5_theorem.1 _ _ _ [.identifier "table"] "a" [] [] rfl rfl rfl
